import Mathlib

/-!
Verification of the xapi-ai-format statement exporter (src/js/app.js).

The development shallowly embeds the JavaScript code: JSON documents are an
inductive type (`Json`, with mutually inductive arrays and objects so that all
recursion stays structural and kernel-reducible); JavaScript property access,
truthiness and string coercion are modelled explicitly; code that can throw is
modelled in `Option` (`none` = an exception escapes).  Numbers are modelled as
exact decimals, a value m * 10 ^ e; JavaScript binary floating point is not
reproduced, which is faithful for the integer and short-decimal values that
occur here.  Duplicate keys inside one JSON object are resolved last-wins, as
JSON.parse does.
-/

/- JSON values, as produced by JSON.parse.  The constructor num m e is the
decimal m * 10 ^ e, obj keeps fields in textual order (lookup is last-wins). -/
mutual
inductive Json where
  | null : Json
  | bool (b : Bool) : Json
  | num (m : Int) (e : Int) : Json
  | str (s : String) : Json
  | arr (elems : JArr) : Json
  | obj (fields : JObj) : Json
deriving DecidableEq
inductive JArr where
  | nil : JArr
  | cons (hd : Json) (tl : JArr) : JArr
deriving DecidableEq
inductive JObj where
  | nil : JObj
  | cons (k : String) (v : Json) (tl : JObj) : JObj
deriving DecidableEq
end

/-- Build an object from an association list. -/
def jobj (l : List (String × Json)) : Json :=
  .obj (l.foldr (fun p t => .cons p.1 p.2 t) .nil)

/-- Build an array from a list. -/
def jarr (l : List Json) : Json := .arr (l.foldr .cons .nil)

/-- Elements of a JSON array, as a list. -/
def JArr.toList : JArr → List Json
  | .nil => []
  | .cons h t => h :: t.toList

/-- Last-wins key lookup, the observable field map of a parsed JS object. -/
def JObj.lookupLast : JObj → String → Option Json
  | .nil, _ => none
  | .cons k v t, key => match t.lookupLast key with
      | some r => some r
      | none => if k = key then some v else none

/-- Keys of an object in textual order (possibly with duplicates). -/
def JObj.keys : JObj → List String
  | .nil => []
  | .cons k _ t => k :: t.keys

/-- First-occurrence deduplication, the key order of a JS object. -/
def dedupKeys : List String → List String
  | [] => []
  | k :: t => k :: (dedupKeys t).filter (fun x => x ≠ k)

/-- JavaScript truthiness of a JSON value. -/
def truthy : Json → Bool
  | .null => false
  | .bool b => b
  | .num m _ => m ≠ 0
  | .str s => s ≠ ""
  | .arr _ => true
  | .obj _ => true

/-- Truthiness of a possibly-undefined value (`none` = undefined). -/
def truthyO : Option Json → Bool
  | none => false
  | some j => truthy j

/-- JavaScript member access `v.k`.  Outer `none` models a TypeError
(member access on undefined or null); inner `none` models undefined. -/
def jsMem : Option Json → String → Option (Option Json)
  | none, _ => none
  | some .null, _ => none
  | some (.obj fs), k => some (fs.lookupLast k)
  | some _, _ => some none

/-- Digits of a natural number (decimal). -/
def natDigits (n : Nat) : List Char := (Nat.repr n).data

/-- Normalize a decimal m * 10 ^ e by removing trailing fractional zeros;
fueled, structurally recursive. -/
def normNumAux : Nat → Int → Int → Int × Int
  | 0, m, e => (m, e)
  | f + 1, m, e => if e < 0 ∧ m % 10 = 0 then normNumAux f (m / 10) (e + 1) else (m, e)

/-- Render the decimal m * 10 ^ e the way JavaScript prints the number
(for the moderate magnitudes that occur; exponent notation for extreme
magnitudes is not reproduced). -/
def renderNum (m e : Int) : List Char :=
  if m = 0 then ['0'] else
  let p := normNumAux (m.natAbs + 1) m e
  let m' := p.1
  let e' := p.2
  let ds := natDigits m'.natAbs
  let sign : List Char := if m' < 0 then ['-'] else []
  if 0 ≤ e' then
    sign ++ ds ++ List.replicate e'.toNat '0'
  else
    let k := (-e').toNat
    if k < ds.length then
      sign ++ ds.take (ds.length - k) ++ '.' :: ds.drop (ds.length - k)
    else
      sign ++ '0' :: '.' :: List.replicate (k - ds.length) '0' ++ ds

/- String() coercion of a JSON value; arrays join with commas, null and
undefined elements joining as empty, objects print as [object Object]. -/
mutual
def jsToStr : Json → String
  | .null => "null"
  | .bool b => if b then "true" else "false"
  | .num m e => String.mk (renderNum m e)
  | .str s => s
  | .arr a => jsArrJoin a
  | .obj _ => "[object Object]"
def jsArrJoin : JArr → String
  | .nil => ""
  | .cons .null .nil => ""
  | .cons h .nil => jsToStr h
  | .cons .null (.cons h2 t) => "," ++ jsArrJoin (.cons h2 t)
  | .cons h (.cons h2 t) => jsToStr h ++ "," ++ jsArrJoin (.cons h2 t)
end

/-- String() of a possibly-undefined value. -/
def jsToStrO : Option Json → String
  | none => "undefined"
  | some j => jsToStr j

/-- Object.values, for the receivers that occur (objects: last-wins values in
first-occurrence key order; arrays: elements; strings: one-character strings;
other primitives: empty). -/
def objValues : Json → List Json
  | .obj fs => ((dedupKeys fs.keys).filterMap fs.lookupLast)
  | .arr a => a.toList
  | .str s => s.data.map (fun c => .str (String.mk [c]))
  | _ => []

/-- Hex digit for string escapes. -/
def hexDigit (n : Nat) : Char :=
  if n < 10 then Char.ofNat (48 + n) else Char.ofNat (87 + n)

/-- JSON.stringify escaping of one character. -/
def escChar (c : Char) : List Char :=
  if c = '"' then ['\\', '"']
  else if c = '\\' then ['\\', '\\']
  else if c = '\n' then ['\\', 'n']
  else if c = '\t' then ['\\', 't']
  else if c = '\r' then ['\\', 'r']
  else if c = '\x08' then ['\\', 'b']
  else if c = '\x0c' then ['\\', 'f']
  else if c.toNat < 32 then
    ['\\', 'u', '0', '0', hexDigit (c.toNat / 16), hexDigit (c.toNat % 16)]
  else [c]

/-- JSON.stringify rendering of a string literal, quotes included. -/
def renderStr (s : String) : List Char :=
  '"' :: s.data.flatMap escChar ++ ['"']

/- Compact JSON.stringify(v): no whitespace, elements and fields joined by
single commas. -/
mutual
def renderC : Json → List Char
  | .null => "null".data
  | .bool b => if b then "true".data else "false".data
  | .num m e => renderNum m e
  | .str s => renderStr s
  | .arr .nil => "[]".data
  | .arr a => '[' :: renderCA a ++ [']']
  | .obj .nil => "\x7b\x7d".data
  | .obj o => '\x7b' :: renderCO o ++ ['\x7d']
def renderCA : JArr → List Char
  | .nil => []
  | .cons h .nil => renderC h
  | .cons h t => renderC h ++ ',' :: renderCA t
def renderCO : JObj → List Char
  | .nil => []
  | .cons k v .nil => renderStr k ++ ':' :: renderC v
  | .cons k v t => renderStr k ++ ':' :: renderC v ++ ',' :: renderCO t
end

/- Pretty JSON.stringify(v, null, 2): containers open on their own line, each
child indented two spaces beyond the current indent, closing bracket back at
the current indent; empty containers print without inner whitespace. -/
mutual
def renderP : Json → Nat → List Char
  | .null, _ => "null".data
  | .bool b, _ => if b then "true".data else "false".data
  | .num m e, _ => renderNum m e
  | .str s, _ => renderStr s
  | .arr .nil, _ => "[]".data
  | .arr a, ind => '[' :: '\n' :: renderPA a (ind + 2) ++
      '\n' :: List.replicate ind ' ' ++ [']']
  | .obj .nil, _ => "\x7b\x7d".data
  | .obj o, ind => '\x7b' :: '\n' :: renderPO o (ind + 2) ++
      '\n' :: List.replicate ind ' ' ++ ['\x7d']
def renderPA : JArr → Nat → List Char
  | .nil, _ => []
  | .cons h .nil, ind => List.replicate ind ' ' ++ renderP h ind
  | .cons h t, ind => List.replicate ind ' ' ++ renderP h ind ++
      ',' :: '\n' :: renderPA t ind
def renderPO : JObj → Nat → List Char
  | .nil, _ => []
  | .cons k v .nil, ind => List.replicate ind ' ' ++ renderStr k ++
      ':' :: ' ' :: renderP v ind
  | .cons k v t, ind => List.replicate ind ' ' ++ renderStr k ++
      ':' :: ' ' :: renderP v ind ++ ',' :: '\n' :: renderPO t ind
end

/-- Compact stringify as a String. -/
def jsonStringify (v : Json) : String := String.mk (renderC v)

/-- Pretty stringify (indent 2) as a String. -/
def jsonStringifyPretty (v : Json) : String := String.mk (renderP v 0)

/-- JSON whitespace. -/
def isJsonWs (c : Char) : Bool := c = ' ' ∨ c = '\t' ∨ c = '\n' ∨ c = '\r'

/-- Drop leading JSON whitespace. -/
def skipWs (cs : List Char) : List Char := cs.dropWhile isJsonWs

/-- Decimal value of a digit run. -/
def digitsToNat (ds : List Char) : Nat :=
  ds.foldl (fun a c => a * 10 + (c.toNat - 48)) 0

/-- Parse the strict JSON integer part: 0, or a nonzero digit followed by
digits.  Returns the digits and the rest. -/
def parseIntPart : List Char → Option (List Char × List Char)
  | '0' :: rest => some (['0'], rest)
  | c :: rest =>
      if c.isDigit then
        let p := rest.span Char.isDigit
        some (c :: p.1, p.2)
      else none
  | [] => none

/-- Parse an optional JSON fraction part, returning its digits. -/
def parseFracPart : List Char → Option (List Char × List Char)
  | '.' :: rest =>
      let p := rest.span Char.isDigit
      if p.1 = [] then none else some (p.1, p.2)
  | cs => some ([], cs)

/-- Parse an optional JSON exponent part, returning its signed value. -/
def parseExpPart : List Char → Option (Int × List Char)
  | 'e' :: rest => parseExpTail rest
  | 'E' :: rest => parseExpTail rest
  | cs => some (0, cs)
where
  parseExpTail : List Char → Option (Int × List Char)
  | '+' :: rest => parseExpDigits rest
  | '-' :: rest => (parseExpDigits rest).map (fun p => (-p.1, p.2))
  | rest => parseExpDigits rest
  parseExpDigits : List Char → Option (Int × List Char)
  | cs =>
      let p := cs.span Char.isDigit
      if p.1 = [] then none else some ((digitsToNat p.1 : Int), p.2)

/-- Parse a JSON number into its exact decimal. -/
def parseNumber (cs : List Char) : Option (Json × List Char) := do
  let (neg, cs1) := match cs with
    | '-' :: rest => (true, rest)
    | _ => (false, cs)
  let (ip, cs2) ← parseIntPart cs1
  let (fp, cs3) ← parseFracPart cs2
  let (ex, cs4) ← parseExpPart cs3
  let mNat := digitsToNat (ip ++ fp)
  let m : Int := if neg then -(mNat : Int) else (mNat : Int)
  some (.num m (ex - (fp.length : Int)), cs4)

/-- Parse the remainder of a JSON string literal (opening quote already
consumed), unescaping; lone-surrogate escapes are rejected rather than
producing invalid scalars. -/
def parseStrTail : Nat → List Char → Option (List Char × List Char)
  | 0, _ => none
  | _ + 1, [] => none
  | _ + 1, '"' :: rest => some ([], rest)
  | fuel + 1, '\\' :: esc =>
      (match esc with
       | 'n' :: r => (parseStrTail fuel r).map (fun p => ('\n' :: p.1, p.2))
       | 't' :: r => (parseStrTail fuel r).map (fun p => ('\t' :: p.1, p.2))
       | 'r' :: r => (parseStrTail fuel r).map (fun p => ('\r' :: p.1, p.2))
       | 'b' :: r => (parseStrTail fuel r).map (fun p => ('\x08' :: p.1, p.2))
       | 'f' :: r => (parseStrTail fuel r).map (fun p => ('\x0c' :: p.1, p.2))
       | '"' :: r => (parseStrTail fuel r).map (fun p => ('"' :: p.1, p.2))
       | '\\' :: r => (parseStrTail fuel r).map (fun p => ('\\' :: p.1, p.2))
       | '/' :: r => (parseStrTail fuel r).map (fun p => ('/' :: p.1, p.2))
       | 'u' :: a :: b :: c :: d :: r =>
           if isHexDig a ∧ isHexDig b ∧ isHexDig c ∧ isHexDig d then
             let n := hexVal a * 4096 + hexVal b * 256 + hexVal c * 16 + hexVal d
             if n.isValidChar then
               (parseStrTail fuel r).map (fun p => (Char.ofNat n :: p.1, p.2))
             else none
           else none
       | _ => none)
  | fuel + 1, c :: rest =>
      if c.toNat < 32 then none
      else (parseStrTail fuel rest).map (fun p => (c :: p.1, p.2))
where
  isHexDig (c : Char) : Bool :=
    c.isDigit ∨ (97 ≤ c.toNat ∧ c.toNat ≤ 102) ∨ (65 ≤ c.toNat ∧ c.toNat ≤ 70)
  hexVal (c : Char) : Nat :=
    if c.isDigit then c.toNat - 48
    else if c.toNat ≥ 97 then c.toNat - 87
    else c.toNat - 55

/- Fuel-based recursive-descent JSON value parser; parseVal expects its input
to begin with a value (leading whitespace already skipped by callers). -/
mutual
def parseVal : Nat → List Char → Option (Json × List Char)
  | 0, _ => none
  | fuel + 1, cs =>
      match cs with
      | 'n' :: 'u' :: 'l' :: 'l' :: rest => some (.null, rest)
      | 't' :: 'r' :: 'u' :: 'e' :: rest => some (.bool true, rest)
      | 'f' :: 'a' :: 'l' :: 's' :: 'e' :: rest => some (.bool false, rest)
      | '"' :: rest =>
          (parseStrTail (rest.length + 1) rest).map
            (fun p => (.str (String.mk p.1), p.2))
      | '[' :: rest =>
          (match skipWs rest with
           | ']' :: rest2 => some (.arr .nil, rest2)
           | cs2 => (parseElems fuel cs2).map (fun p => (.arr p.1, p.2)))
      | '\x7b' :: rest =>
          (match skipWs rest with
           | '\x7d' :: rest2 => some (.obj .nil, rest2)
           | cs2 => (parseFields fuel cs2).map (fun p => (.obj p.1, p.2)))
      | _ => parseNumber cs
def parseElems : Nat → List Char → Option (JArr × List Char)
  | 0, _ => none
  | fuel + 1, cs => do
      let (v, rest) ← parseVal fuel cs
      match skipWs rest with
      | ',' :: rest2 =>
          (parseElems fuel (skipWs rest2)).map (fun p => (.cons v p.1, p.2))
      | ']' :: rest2 => some (.cons v .nil, rest2)
      | _ => none
def parseFields : Nat → List Char → Option (JObj × List Char)
  | 0, _ => none
  | fuel + 1, cs =>
      match cs with
      | '"' :: rest => do
          let (k, rest2) ← parseStrTail (rest.length + 1) rest
          match skipWs rest2 with
          | ':' :: rest3 => do
              let (v, rest4) ← parseVal fuel (skipWs rest3)
              (match skipWs rest4 with
               | ',' :: rest5 =>
                   (parseFields fuel (skipWs rest5)).map
                     (fun p => (JObj.cons (String.mk k) v p.1, p.2))
               | '\x7d' :: rest5 => some (JObj.cons (String.mk k) v .nil, rest5)
               | _ => none)
          | _ => none
      | _ => none
end

/-- JSON.parse: parse one value, allow surrounding whitespace, require the
whole input to be consumed; `none` models a thrown SyntaxError. -/
def parseJson (s : String) : Option Json := do
  let cs := skipWs s.data
  let (v, rest) ← parseVal (s.data.length + 1) cs
  if skipWs rest = [] then some v else none

/-- Split a character list at every occurrence of a separator character,
as String.prototype.split with a one-character separator. -/
def splitOnChar (sep : Char) : List Char → List (List Char)
  | [] => [[]]
  | c :: cs =>
      if c = sep then [] :: splitOnChar sep cs
      else match splitOnChar sep cs with
        | [] => [[c]]
        | p :: ps => (c :: p) :: ps

/-- obfuscateEmail (app.js lines 96-100): destructure email.split(at) into
local part and domain, keep the first character of the local part, append
one asterisk per remaining character, re-join with the domain.  `none`
models the RangeError thrown by asterisk.repeat(-1) when the local part is
empty; a missing domain segment interpolates as the string undefined. -/
def obfuscateEmail (email : String) : Option String :=
  let parts := splitOnChar '@' email.data
  let localPart := parts.headD []
  let domain : String := match parts[1]? with
    | some d => String.mk d
    | none => "undefined"
  match localPart with
  | [] => none
  | c :: rest => some (String.mk (c :: List.replicate rest.length '*') ++ "@" ++ domain)

/-- Parse the trailing seconds component of the duration pattern: either
nothing, or digits, an optional dot-digits fraction, and a final S ending
the string.  Returns the seconds digits value and the fraction digits. -/
def isoStageS : List Char → Option (Nat × List Char)
  | [] => some (0, [])
  | cs =>
      let p := cs.span Char.isDigit
      if p.1 = [] then none
      else match p.2 with
        | ['S'] => some (digitsToNat p.1, [])
        | '.' :: rest2 =>
            let q := rest2.span Char.isDigit
            if q.1 = [] then none
            else match q.2 with
              | ['S'] => some (digitsToNat p.1, q.1)
              | _ => none
        | _ => none

/-- Parse the optional minutes component followed by the seconds component. -/
def isoStageM : List Char → Option (Nat × Nat × List Char)
  | [] => some (0, 0, [])
  | cs =>
      let p := cs.span Char.isDigit
      if p.1 = [] then none
      else match p.2 with
        | 'M' :: rest => (isoStageS rest).map (fun r => (digitsToNat p.1, r.1, r.2))
        | _ => (isoStageS cs).map (fun r => (0, r.1, r.2))

/-- Parse the optional hours component followed by minutes and seconds. -/
def isoStageH : List Char → Option (Nat × Nat × Nat × List Char)
  | [] => some (0, 0, 0, [])
  | cs =>
      let p := cs.span Char.isDigit
      if p.1 = [] then none
      else match p.2 with
        | 'H' :: rest => (isoStageM rest).map (fun r => (digitsToNat p.1, r.1, r.2.1, r.2.2))
        | _ => (isoStageM cs).map (fun r => (0, r.1, r.2.1, r.2.2))

/-- Match a duration string against the anchored pattern
PT (digits H)? (digits M)? (digits (dot digits)? S)?, the regular expression
of app.js line 116, returning hours, minutes, seconds and fraction digits.
The staged parse is equivalent to the regex: each optional group matches
exactly when a maximal digit run is followed by its letter. -/
def isoMatch (cs : List Char) : Option (Nat × Nat × Nat × List Char) :=
  match cs with
  | 'P' :: 'T' :: rest => isoStageH rest
  | _ => none

/-- Value of parseFloat on a dot-fraction: the fraction digits over the
matching power of ten. -/
def fracVal (ds : List Char) : ℚ := (digitsToNat ds : ℚ) / (10 ^ ds.length : ℚ)

/-- iso8601ToSeconds (app.js lines 115-128): on a pattern match return
hours * 3600 + minutes * 60 + seconds + fraction; on no match return the
empty string, modelled as `none`. -/
def iso8601ToSeconds (duration : String) : Option ℚ :=
  (isoMatch duration.data).map
    (fun r => (r.1 : ℚ) * 3600 + (r.2.1 : ℚ) * 60 + (r.2.2.1 : ℚ) + fracVal r.2.2.2)

/-- Strip trailing zero digits of a fraction, as the JavaScript number print
does after parseFloat. -/
def stripTrailingZeros (ds : List Char) : List Char :=
  (ds.reverse.dropWhile (fun c => c = '0')).reverse

/-- The textual value the CSV row shows for a matched duration: the integral
seconds, then the fraction digits if any survive. -/
def isoSecondsString (duration : String) : Option String :=
  (isoMatch duration.data).map
    (fun r =>
      let intPart := r.1 * 3600 + r.2.1 * 60 + r.2.2.1
      match stripTrailingZeros r.2.2.2 with
      | [] => Nat.repr intPart
      | fs => Nat.repr intPart ++ "." ++ String.mk fs)

/-- JavaScript String.prototype.trim whitespace (the common subset). -/
def isJsWs (c : Char) : Bool :=
  c = ' ' ∨ c = '\t' ∨ c = '\n' ∨ c = '\r' ∨ c = '\x0b' ∨ c = '\x0c'

/-- String.prototype.trim. -/
def jsTrim (cs : List Char) : List Char :=
  ((cs.dropWhile isJsWs).reverse.dropWhile isJsWs).reverse

/-- Remove one leading open bracket and, from the remainder, one trailing
close bracket: the replace of anchored-bracket alternatives, global flag. -/
def stripBrackets (cs : List Char) : List Char :=
  let a := match cs with
    | '[' :: rest => rest
    | other => other
  match a.getLast? with
  | some ']' => a.dropLast
  | _ => a

/-- Remove one leading and one trailing double quote, same shape. -/
def stripQuotes (cs : List Char) : List Char :=
  let a := match cs with
    | '"' :: rest => rest
    | other => other
  match a.getLast? with
  | some '"' => a.dropLast
  | _ => a

/-- Split on the literal three-character delimiter open-bracket comma
close-bracket, left to right, non-overlapping. -/
def splitBrCommaBr : List Char → List Char → List (List Char)
  | '[' :: ',' :: ']' :: rest, acc => acc.reverse :: splitBrCommaBr rest []
  | c :: rest, acc => splitBrCommaBr rest (c :: acc)
  | [], acc => [acc.reverse]

/-- processStringToArray (app.js lines 131-136): trim, strip enclosing
brackets, strip enclosing quotes, split on the literal delimiter. -/
def processStringToArray (inputString : String) : List String :=
  (splitBrCommaBr (stripQuotes (stripBrackets (jsTrim inputString.data))) []).map String.mk

/-- Remove the first occurrence of the literal mailto: prefix pattern
anywhere in the string, as String.prototype.replace with a string pattern. -/
def stripMailto : List Char → List Char
  | 'm' :: 'a' :: 'i' :: 'l' :: 't' :: 'o' :: ':' :: rest => rest
  | c :: rest => c :: stripMailto rest
  | [] => []

/-- The record filter predicate of app.js line 161:
s.actor and s.actor.mbox and s.verb and s.verb.display, a JavaScript
truthiness chain with short-circuiting.  `none` models the TypeError of a
member access on a null record. -/
def acceptStatement (s : Json) : Option Bool := do
  let actorV ← jsMem (some s) "actor"
  if truthyO actorV then do
    let mboxV ← jsMem actorV "mbox"
    if truthyO mboxV then do
      let verbV ← jsMem (some s) "verb"
      if truthyO verbV then do
        let dispV ← jsMem verbV "display"
        pure (truthyO dispV)
      else pure false
    else pure false
  else pure false

/-- Array.prototype.filter with the accept predicate, in element order;
`none` if the predicate throws on any element. -/
def filterAccept : List Json → Option (List Json)
  | [] => some []
  | s :: ss => do
      let b ← acceptStatement s
      let rest ← filterAccept ss
      pure (if b then s :: rest else rest)

/-- One store response: HTTP status, the statements collection (`none` models
a body whose statements field is falsy), and the continuation token (`none`
models an absent more field). -/
structure Page where
  status : Nat
  statements : Option (List Json)
  more : Option String
deriving DecidableEq

/-- Truthiness-and-nonempty test on the continuation token:
response.more and response.more not equal to the empty string. -/
def moreActive : Option String → Bool
  | none => false
  | some t => t ≠ ""

/-- One page as filtered and appended by the engine (empty when the page is
malformed or the filter throws); used to state what a run accumulates. -/
def pageFiltered (p : Page) : List Json :=
  (filterAccept (p.statements.getD [])).getD []

/-- The filtered records of a sequence of pages, in order. -/
def accumOf (pages : List Page) : List Json :=
  (pages.map pageFiltered).flatten

/-- The recursive fetch of fetchStatements (app.js lines 145-178).  `pages`
is the stream of store responses still to come; `acc` and `cnt` are
allStatements and fetchedCount; `n` counts completed round trips, and
`flag n` is the value the shared isFetching flag shows at the start of round
n (the same value the round n-1 callback saw, since no suspension separates
them).  Entry check: return the accumulator when the flag is off or the
count has reached the limit.  A non-200 page rejects, a page with a falsy
statements field rejects, a filter throw escapes, and a run that outlives
the modelled response stream is an error.  Otherwise the filtered page is
appended and the run recurses exactly when the continuation token is active
and the flag still shows true. -/
def fetchGo (flag : Nat → Bool) (limit : Nat) :
    List Page → List Json → Nat → Nat → Except String (List Json)
  | pages, acc, cnt, n =>
    if ¬ flag n ∨ cnt ≥ limit then .ok acc
    else match pages with
      | [] => .error "no response"
      | p :: ps =>
        if p.status ≠ 200 then .error "Error fetching statements."
        else match p.statements with
          | none => .error "No statements found."
          | some stmts =>
            match filterAccept stmts with
            | none => .error "exception in filter"
            | some filtered =>
              let acc2 := acc ++ filtered
              let cnt2 := cnt + filtered.length
              if moreActive p.more ∧ flag (n + 1) then
                fetchGo flag limit ps acc2 cnt2 (n + 1)
              else .ok acc2

/-- fetchStatements (app.js lines 139-181): run the recursive fetch from an
empty accumulator. -/
def fetchStatements (pages : List Page) (flag : Nat → Bool) (limit : Nat) :
    Except String (List Json) :=
  fetchGo flag limit pages [] 0 0

/-- One CSV row of the tabular export, as the eleven field strings the line
template interpolates. -/
structure Row where
  id : String
  actor : String
  verb : String
  objectId : String
  objectName : String
  duration : String
  questionAnswers : String
  questionPassed : String
  questionCorrectAnswers : String
  usersAnswer : String
  timestamp : String
deriving DecidableEq, Repr

/-- JSON.parse applied to an arbitrary value: the argument is first coerced
with String(). -/
def parseArg (v : Option Json) : Option Json := parseJson (jsToStrO v)

/-- A value that is about to be used as a string (trim called on it); any
other shape throws. -/
def jsAsString : Option Json → Option String
  | some (.str s) => some s
  | _ => none

/-- A value whose forEach is about to be called; non-arrays throw. -/
def jsAsArr : Json → Option JArr
  | .arr a => some a
  | _ => none

/-- The actor column (app.js lines 193-199): if the mailbox value is truthy,
strip the mailto: prefix and optionally anonymize, else the empty string.
Throws (none) when the actor is null or undefined, when a truthy mailbox is
not a string, or when anonymization itself throws. -/
def actorField (obfuscate : Bool) (actorV : Option Json) : Option String := do
  let mboxV ← jsMem actorV "mbox"
  if truthyO mboxV then
    match mboxV with
    | some (.str m) =>
        let stripped := String.mk (stripMailto m.data)
        if obfuscate then obfuscateEmail stripped else some stripped
    | _ => none
  else pure ""

/-- The message of the TypeError caught when a truthy non-string duration
reaches the match call; the catch stores the message in the column. -/
def durationDiagnostic : String := "duration.match is not a function"

/-- The duration column (app.js lines 206-213): default 0; when result and
result.duration are truthy, the converted seconds (empty on a failed match);
a non-string duration raises inside the try and the caught message is
stored. -/
def durationField (resV : Option Json) : String :=
  if truthyO resV then
    match jsMem resV "duration" with
    | some dv =>
        if truthyO dv then
          match dv with
          | some (.str d) => (isoSecondsString d).getD ""
          | _ => durationDiagnostic
        else "0"
    | none => "0"
  else "0"

/-- The body of the forEach over the decoded choices (app.js lines 224-240).
State: 1-based index i, and the three accumulation strings.  questionAnswers
grows across iterations; the correct-answers and users-answer strings are
rebuilt from the empty string on every iteration, so earlier choices leave
no trace in them.  Each iteration re-reads and re-splits the two pattern
strings from the result substructure. -/
def choicesLoop (resV : Option Json) :
    List Json → Nat → String → String → String → Option (String × String × String)
  | [], _, qa, qca, ua => some (qa, qca, ua)
  | c :: cs, i, qa, _, _ => do
      let cidV ← jsMem (some c) "id"
      let dscV ← jsMem (some c) "description"
      let undV ← jsMem dscV "und"
      let qa2 := qa ++ "id= " ++ Nat.repr i ++ ": " ++ jsToStrO cidV ++
        " Answer=" ++ jsToStrO undV ++ "|"
      let patV ← jsMem resV "correctResponsesPattern"
      let patS ← jsAsString patV
      let qca2 := (processStringToArray patS).foldl
        (fun a r => a ++ " id=" ++ r ++ " Answer=" ++ jsToStrO undV ++ "|") ""
      let rspV ← jsMem resV "responses"
      let rspS ← jsAsString rspV
      let ua2 := (processStringToArray rspS).foldl
        (fun a r => a ++ " id=" ++ r ++ " Answer=" ++ jsToStrO undV ++ "|") ""
      choicesLoop resV cs (i + 1) qa2 qca2 ua2

/-- The nested question block (app.js lines 215-241), producing
(questionAnswers, questionPassed, questionCorrectAnswers, usersAnswer).
Entered only when result and result.response are truthy; inside, the
response and choices strings are JSON-decoded without any try/catch, so a
decode failure (or any other throw) escapes as none. -/
def questionFields (resV : Option Json) : Option (String × String × String × String) :=
  if truthyO resV then do
    let respV ← jsMem resV "response"
    if truthyO respV then do
      let res ← parseArg respV
      let sv ← jsMem (some res) "success"
      let qp := if truthyO sv then "True" else "False"
      let chV ← jsMem resV "choices"
      let chJ ← parseArg chV
      let ca ← jsAsArr chJ
      let r3 ← choicesLoop resV ca.toList 1 "" "" ""
      pure (r3.1, qp, r3.2.1, r3.2.2)
    else pure ("", "", "", "")
  else pure ("", "", "", "")

/-- The per-record row computation inside the csv branch of
processStatements (app.js lines 191-243), in source order; none models a
thrown exception escaping the map callback. -/
def extractRow (obfuscate : Bool) (s : Json) : Option Row := do
  let idV ← jsMem (some s) "id"
  let actorV ← jsMem (some s) "actor"
  let actorStr ← actorField obfuscate actorV
  let verbV ← jsMem (some s) "verb"
  let dispV ← jsMem verbV "display"
  let verbStr := match dispV with
    | some d => if truthy d then jsToStrO (objValues d).head? else ""
    | none => ""
  let objV ← jsMem (some s) "object"
  let defV ← jsMem objV "definition"
  let objectNameStr ← (match defV with
    | some d =>
        if truthy d then do
          let nameV ← jsMem (some d) "name"
          pure (match nameV with
            | some n => if truthy n then jsToStrO (objValues n).head? else ""
            | none => "")
        else pure ""
    | none => pure "")
  let objectIdV ← jsMem objV "id"
  let tsV ← jsMem (some s) "timestamp"
  let resV ← jsMem (some s) "result"
  let durStr := durationField resV
  let q ← questionFields resV
  pure {
    id := jsToStrO idV
    actor := actorStr
    verb := verbStr
    objectId := jsToStrO objectIdV
    objectName := objectNameStr
    duration := durStr
    questionAnswers := q.1
    questionPassed := q.2.1
    questionCorrectAnswers := q.2.2.1
    usersAnswer := q.2.2.2
    timestamp := jsToStrO tsV }

/-- The comma-joined CSV line of one row (no quoting or escaping). -/
def rowToLine (r : Row) : String :=
  r.id ++ "," ++ r.actor ++ "," ++ r.verb ++ "," ++ r.objectId ++ "," ++
  r.objectName ++ "," ++ r.duration ++ "," ++ r.questionAnswers ++ "," ++
  r.questionPassed ++ "," ++ r.questionCorrectAnswers ++ "," ++
  r.usersAnswer ++ "," ++ r.timestamp

/-- Array.prototype.join with a separator string. -/
def joinSep (sep : String) : List String → String
  | [] => ""
  | [x] => x
  | x :: xs => x ++ sep ++ joinSep sep xs

/-- The CSV header literal of app.js line 190, without its trailing
separator. -/
def csvHeader : String :=
  "ID,Actor,Verb,ObjectID,Object,Duration,Question Answers,Question Passed,Question Correct Answers,Users Answer,Timestamp"

/-- processStatements (app.js lines 184-261): produce (payload, MIME type,
file extension) for a format.  The separator the source joins CSV and jsonl
pieces with is the two-character sequence backslash-n (an escaped escape in
the source string literals), not a newline.  The raw branch pretty-prints
the whole collection with indent 2.  An unknown format throws, and a csv
row throw escapes; both are none. -/
def processStatements (statements : List Json) (format : String) (obfuscate : Bool) :
    Option (String × String × String) :=
  match format with
  | "csv" => do
      let rows ← statements.mapM (fun s => (extractRow obfuscate s).map rowToLine)
      pure (csvHeader ++ "\\n" ++ joinSep "\\n" rows, "text/csv", "csv")
  | "jsonl" => pure (joinSep "\\n" (statements.map jsonStringify), "application/json", "jsonl")
  | "raw" => pure (jsonStringifyPretty (jarr statements), "application/json", "json")
  | _ => none

/-- takeWhile over a run that wholly satisfies the predicate followed by a
rest whose head fails it. -/
lemma takeWhile_append_all (p : Char → Bool) (l r : List Char)
    (hl : ∀ c ∈ l, p c = true) (hr : ∀ c, r.head? = some c → p c = false) :
    (l ++ r).takeWhile p = l := by
  induction l with
  | nil =>
      cases r with
      | nil => rfl
      | cons a t => simp [List.takeWhile, hr a rfl]
  | cons a t ih =>
      simp only [List.cons_append, List.takeWhile]
      rw [hl a (by simp)]
      simp [ih (fun c hc => hl c (by simp [hc]))]

/-- dropWhile under the same hypotheses. -/
lemma dropWhile_append_all (p : Char → Bool) (l r : List Char)
    (hl : ∀ c ∈ l, p c = true) (hr : ∀ c, r.head? = some c → p c = false) :
    (l ++ r).dropWhile p = r := by
  induction l with
  | nil =>
      cases r with
      | nil => rfl
      | cons a t => simp [List.dropWhile, hr a rfl]
  | cons a t ih =>
      simp only [List.cons_append, List.dropWhile]
      rw [hl a (by simp)]
      simp [ih (fun c hc => hl c (by simp [hc]))]

/-- span splits a maximal digit run from the letter that follows it. -/
lemma span_append_all (p : Char → Bool) (l r : List Char)
    (hl : ∀ c ∈ l, p c = true) (hr : ∀ c, r.head? = some c → p c = false) :
    (l ++ r).span p = (l, r) := by
  rw [List.span_eq_take_drop, takeWhile_append_all p l r hl hr,
    dropWhile_append_all p l r hl hr]

/-- The seconds stage consumes digits directly followed by the final S. -/
lemma isoStageS_digits (sd : List Char) (h1 : sd ≠ [])
    (h2 : ∀ c ∈ sd, c.isDigit = true) :
    isoStageS (sd ++ ['S']) = some (digitsToNat sd, []) := by
  obtain ⟨a, t, rfl⟩ := List.exists_cons_of_ne_nil h1
  have htw : List.takeWhile Char.isDigit (a :: (t ++ ['S'])) = a :: t := by
    simpa using takeWhile_append_all Char.isDigit (a :: t) ['S'] h2
      (by intro c hc; cases hc; decide)
  have hdw : List.dropWhile Char.isDigit (a :: (t ++ ['S'])) = ['S'] := by
    simpa using dropWhile_append_all Char.isDigit (a :: t) ['S'] h2
      (by intro c hc; cases hc; decide)
  simp +decide [isoStageS, List.span_eq_take_drop, htw, hdw]

/-- The seconds stage consumes digits, a dot-digits fraction, and the final
S. -/
lemma isoStageS_frac (sd fd : List Char) (h1 : sd ≠ [])
    (h2 : ∀ c ∈ sd, c.isDigit = true) (h3 : fd ≠ [])
    (h4 : ∀ c ∈ fd, c.isDigit = true) :
    isoStageS (sd ++ '.' :: (fd ++ ['S'])) = some (digitsToNat sd, fd) := by
  obtain ⟨a, t, rfl⟩ := List.exists_cons_of_ne_nil h1
  have htw : List.takeWhile Char.isDigit (a :: (t ++ '.' :: (fd ++ ['S']))) = a :: t := by
    simpa using takeWhile_append_all Char.isDigit (a :: t) ('.' :: (fd ++ ['S'])) h2
      (by intro c hc; cases hc; decide)
  have hdw : List.dropWhile Char.isDigit (a :: (t ++ '.' :: (fd ++ ['S']))) =
      '.' :: (fd ++ ['S']) := by
    simpa using dropWhile_append_all Char.isDigit (a :: t) ('.' :: (fd ++ ['S'])) h2
      (by intro c hc; cases hc; decide)
  have htw2 : List.takeWhile Char.isDigit (fd ++ ['S']) = fd :=
    takeWhile_append_all Char.isDigit fd ['S'] h4 (by intro c hc; cases hc; decide)
  have hdw2 : List.dropWhile Char.isDigit (fd ++ ['S']) = ['S'] :=
    dropWhile_append_all Char.isDigit fd ['S'] h4 (by intro c hc; cases hc; decide)
  simp +decide [isoStageS, List.span_eq_take_drop, htw, hdw, htw2, hdw2, h3]

/-- The minutes stage consumes digits followed by M and hands the rest to the
seconds stage. -/
lemma isoStageM_digits (md rest : List Char) (h1 : md ≠ [])
    (h2 : ∀ c ∈ md, c.isDigit = true) :
    isoStageM (md ++ 'M' :: rest) =
      (isoStageS rest).map (fun r => (digitsToNat md, r.1, r.2)) := by
  obtain ⟨a, t, rfl⟩ := List.exists_cons_of_ne_nil h1
  have htw : List.takeWhile Char.isDigit (a :: (t ++ 'M' :: rest)) = a :: t := by
    simpa using takeWhile_append_all Char.isDigit (a :: t) ('M' :: rest) h2
      (by intro c hc; cases hc; decide)
  have hdw : List.dropWhile Char.isDigit (a :: (t ++ 'M' :: rest)) = 'M' :: rest := by
    simpa using dropWhile_append_all Char.isDigit (a :: t) ('M' :: rest) h2
      (by intro c hc; cases hc; decide)
  simp +decide [isoStageM, List.span_eq_take_drop, htw, hdw]

/-- The hours stage consumes digits followed by H and hands the rest to the
minutes stage. -/
lemma isoStageH_digits (hd rest : List Char) (h1 : hd ≠ [])
    (h2 : ∀ c ∈ hd, c.isDigit = true) :
    isoStageH (hd ++ 'H' :: rest) =
      (isoStageM rest).map (fun r => (digitsToNat hd, r.1, r.2.1, r.2.2)) := by
  obtain ⟨a, t, rfl⟩ := List.exists_cons_of_ne_nil h1
  have htw : List.takeWhile Char.isDigit (a :: (t ++ 'H' :: rest)) = a :: t := by
    simpa using takeWhile_append_all Char.isDigit (a :: t) ('H' :: rest) h2
      (by intro c hc; cases hc; decide)
  have hdw : List.dropWhile Char.isDigit (a :: (t ++ 'H' :: rest)) = 'H' :: rest := by
    simpa using dropWhile_append_all Char.isDigit (a :: t) ('H' :: rest) h2
      (by intro c hc; cases hc; decide)
  simp +decide [isoStageH, List.span_eq_take_drop, htw, hdw]

/-- With hours and minutes absent, the stages fall through to the seconds
component. -/
lemma isoStageH_sec (sd fd : List Char) (h1 : sd ≠ [])
    (h2 : ∀ c ∈ sd, c.isDigit = true) (h3 : fd ≠ [])
    (h4 : ∀ c ∈ fd, c.isDigit = true) :
    isoStageH (sd ++ '.' :: (fd ++ ['S'])) = some (0, 0, digitsToNat sd, fd) := by
  obtain ⟨a, t, rfl⟩ := List.exists_cons_of_ne_nil h1
  have htw : List.takeWhile Char.isDigit (a :: (t ++ '.' :: (fd ++ ['S']))) = a :: t := by
    simpa using takeWhile_append_all Char.isDigit (a :: t) ('.' :: (fd ++ ['S'])) h2
      (by intro c hc; cases hc; decide)
  have hdw : List.dropWhile Char.isDigit (a :: (t ++ '.' :: (fd ++ ['S']))) =
      '.' :: (fd ++ ['S']) := by
    simpa using dropWhile_append_all Char.isDigit (a :: t) ('.' :: (fd ++ ['S'])) h2
      (by intro c hc; cases hc; decide)
  have hs := isoStageS_frac (a :: t) fd (by simp) h2 h3 h4
  simp only [List.cons_append] at hs
  simp +decide [isoStageH, isoStageM, List.span_eq_take_drop, htw, hdw, hs]

/-- C6: iso8601ToSeconds returns hours * 3600 + minutes * 60 + seconds (plus
the fractional part, second conjunct) for well-formed PT#H#M#S strings, and
in particular PT1H2M3S yields 3723, PT0.5S yields 0.5, PT yields 0; a
malformed string such as garbage yields the empty value (none). -/
theorem iso8601_duration_conversion
    (hd md sd fd : List Char)
    (h1 : hd ≠ []) (h2 : ∀ c ∈ hd, c.isDigit = true)
    (h3 : md ≠ []) (h4 : ∀ c ∈ md, c.isDigit = true)
    (h5 : sd ≠ []) (h6 : ∀ c ∈ sd, c.isDigit = true)
    (h7 : fd ≠ []) (h8 : ∀ c ∈ fd, c.isDigit = true) :
    iso8601ToSeconds
        (String.mk ('P' :: 'T' :: (hd ++ 'H' :: (md ++ 'M' :: (sd ++ ['S']))))) =
      some ((digitsToNat hd : ℚ) * 3600 + (digitsToNat md : ℚ) * 60 + (digitsToNat sd : ℚ)) ∧
    iso8601ToSeconds (String.mk ('P' :: 'T' :: (sd ++ '.' :: (fd ++ ['S'])))) =
      some ((digitsToNat sd : ℚ) + (digitsToNat fd : ℚ) / ((10 : ℚ) ^ fd.length)) ∧
    iso8601ToSeconds "PT1H2M3S" = some 3723 ∧
    iso8601ToSeconds "PT0.5S" = some 0.5 ∧
    iso8601ToSeconds "PT" = some 0 ∧
    iso8601ToSeconds "garbage" = none := by
  refine ⟨?_, ?_, ?_, ?_, ?_, ?_⟩
  · have hm : isoMatch ('P' :: 'T' :: (hd ++ 'H' :: (md ++ 'M' :: (sd ++ ['S'])))) =
        some (digitsToNat hd, digitsToNat md, digitsToNat sd, []) := by
      simp [isoMatch, isoStageH_digits hd _ h1 h2, isoStageM_digits md _ h3 h4,
        isoStageS_digits sd h5 h6]
    show (isoMatch ('P' :: 'T' :: (hd ++ 'H' :: (md ++ 'M' :: (sd ++ ['S']))))).map _ = _
    rw [hm]
    simp [fracVal, digitsToNat]
  · have hm : isoMatch ('P' :: 'T' :: (sd ++ '.' :: (fd ++ ['S']))) =
        some (0, 0, digitsToNat sd, fd) := by
      simp [isoMatch, isoStageH_sec sd fd h5 h6 h7 h8]
    show (isoMatch ('P' :: 'T' :: (sd ++ '.' :: (fd ++ ['S'])))).map _ = _
    rw [hm]
    simp [fracVal]
  · have hm : isoMatch "PT1H2M3S".data = some (1, 2, 3, []) := by decide
    show (isoMatch "PT1H2M3S".data).map _ = _
    rw [hm]
    norm_num [fracVal, digitsToNat]
  · have hm : isoMatch "PT0.5S".data = some (0, 0, 0, ['5']) := by decide
    have hv : digitsToNat ['5'] = 5 := by decide
    show (isoMatch "PT0.5S".data).map _ = _
    rw [hm]
    norm_num [fracVal, hv]
  · have hm : isoMatch "PT".data = some (0, 0, 0, []) := by decide
    show (isoMatch "PT".data).map _ = _
    rw [hm]
    norm_num [fracVal, digitsToNat]
  · have hm : isoMatch "garbage".data = none := by decide
    show (isoMatch "garbage".data).map _ = _
    rw [hm]
    rfl

/-- Witness for C6 at the concrete digit runs 1, 2, 3 and fraction 5. -/
theorem iso8601_duration_conversion_witness :
    iso8601ToSeconds "PT1H2M3S" = some 3723 :=
  (iso8601_duration_conversion ['1'] ['2'] ['3'] ['5']
    (by decide) (by decide) (by decide) (by decide) (by decide) (by decide)
    (by decide) (by decide)).2.2.1

/-- Splitting a list that does not contain the separator yields that list
alone. -/
lemma splitOnChar_no_sep (sep : Char) (l : List Char) (h : sep ∉ l) :
    splitOnChar sep l = [l] := by
  induction l with
  | nil => rfl
  | cons a t ih =>
      have ha : a ≠ sep := by rintro rfl; exact h (by simp)
      rw [splitOnChar, if_neg ha, ih (fun hm => h (by simp [hm]))]

/-- Splitting at the first separator occurrence peels off the prefix. -/
lemma splitOnChar_append (sep : Char) (l r : List Char) (h : sep ∉ l) :
    splitOnChar sep (l ++ sep :: r) = l :: splitOnChar sep r := by
  induction l with
  | nil => simp [splitOnChar]
  | cons a t ih =>
      have ha : a ≠ sep := by rintro rfl; exact h (by simp)
      rw [List.cons_append, splitOnChar, if_neg ha,
        ih (fun hm => h (by simp [hm]))]

/-- C7: obfuscateEmail keeps the first character of the local part, replaces
each remaining local-part character with an asterisk, and leaves the at-sign
and the domain unchanged; in particular alice@example.com maps to
a****@example.com and a@b.com maps to itself (no mask characters for a
one-character local part). -/
theorem obfuscateEmail_masks_local_part
    (ld dd : List Char) (h1 : ld ≠ []) (h2 : '@' ∉ ld) (h3 : '@' ∉ dd) :
    obfuscateEmail (String.mk (ld ++ '@' :: dd)) =
      some (String.mk (ld.take 1 ++ List.replicate (ld.length - 1) '*' ++ '@' :: dd)) ∧
    obfuscateEmail "alice@example.com" = some "a****@example.com" ∧
    obfuscateEmail "a@b.com" = some "a@b.com" := by
  refine ⟨?_, by decide, by decide⟩
  obtain ⟨a, t, rfl⟩ := List.exists_cons_of_ne_nil h1
  have hsp : splitOnChar '@' ((a :: t) ++ '@' :: dd) = (a :: t) :: [dd] := by
    rw [splitOnChar_append '@' (a :: t) dd h2, splitOnChar_no_sep '@' dd h3]
  simp only [List.cons_append] at hsp
  simp [obfuscateEmail, hsp]
  apply String.ext
  simp [String.data_append]

/-- Witness for C7 at alice@example.com. -/
theorem obfuscateEmail_masks_local_part_witness :
    obfuscateEmail (String.mk ("alice".data ++ '@' :: "example.com".data)) =
      some (String.mk ("alice".data.take 1 ++
        List.replicate ("alice".data.length - 1) '*' ++ '@' :: "example.com".data)) :=
  (obfuscateEmail_masks_local_part "alice".data "example.com".data
    (by decide) (by decide) (by decide)).1

/-- A record whose mailbox has an empty local part; all other fields are
well-formed. -/
def c9rec : Json := jobj [
  ("id", .str "s9"),
  ("actor", jobj [("mbox", .str "mailto:@example.com")]),
  ("verb", jobj [("display", jobj [("en", .str "attempted")])]),
  ("object", jobj [("id", .str "http://x/act")]),
  ("timestamp", .str "2024-07-15T00:00:00Z")]

/-- C9: on any email-shaped input whose local part is empty (the empty
string, or any string starting with the at-sign) obfuscateEmail throws
(RangeError from a negative repeat count), modelled as none; consequently
the anonymized row extraction is not total: it throws on a record whose
mailbox identifier has an empty local part, while the same record extracts
fine without anonymization. -/
theorem obfuscateEmail_empty_local_throws
    (s : String) (h : s = "" ∨ s.data.head? = some '@') :
    obfuscateEmail s = none ∧
    obfuscateEmail "@example.com" = none ∧
    obfuscateEmail "" = none ∧
    extractRow true c9rec = none ∧
    (extractRow false c9rec).isSome = true := by
  refine ⟨?_, by decide, by decide, by decide, by decide⟩
  rcases h with h | h
  · subst h; decide
  · cases hs : s.data with
    | nil => simp [hs] at h
    | cons a t =>
        rw [hs] at h
        simp only [List.head?] at h
        obtain rfl : a = '@' := by injection h
        have hrepr : s = String.mk ('@' :: t) := by
          cases s
          exact congrArg String.mk hs
        rw [hrepr]
        simp [obfuscateEmail, splitOnChar]

/-- Witness for C9 at the concrete input with empty local part. -/
theorem obfuscateEmail_empty_local_throws_witness :
    obfuscateEmail "@example.com" = none :=
  (obfuscateEmail_empty_local_throws "@example.com" (Or.inr (by decide))).1

/-- A record in which actor, mbox, verb and display are all present and
non-null, but the mbox string is empty. -/
def c8rec : Json := jobj [
  ("actor", jobj [("mbox", .str "")]),
  ("verb", jobj [("display", jobj [("en", .str "did")])])]

/-- C8 counterexample: the claimed acceptance condition (non-null actor,
mbox, verb, display) holds of this record, yet the filter drops it, because
the truthiness test on the empty mbox string fails; so accept-iff-non-null
is false as stated. -/
theorem acceptStatement_empty_mbox_rejected :
    acceptStatement c8rec = some false ∧
    jsMem (some c8rec) "actor" = some (some (jobj [("mbox", .str "")])) ∧
    jsMem (some (jobj [("mbox", .str "")])) "mbox" = some (some (.str "")) ∧
    jsMem (some c8rec) "verb" = some (some (jobj [("display", jobj [("en", .str "did")])])) ∧
    jsMem (some (jobj [("display", jobj [("en", .str "did")])])) "display" =
      some (some (jobj [("en", .str "did")])) := by
  refine ⟨by decide, by decide, by decide, by decide, by decide⟩

/-- C8 amended: for a record whose actor and verb are objects carrying a
string mbox and an object display, the filter accepts exactly when the mbox
string is non-empty (truthiness, not mere non-nullness), and the test never
throws on such a record; records failing the test are dropped, not errors. -/
theorem acceptStatement_truthiness
    (s : Json) (a v d : JObj) (m : String)
    (h1 : jsMem (some s) "actor" = some (some (.obj a)))
    (h2 : a.lookupLast "mbox" = some (.str m))
    (h3 : jsMem (some s) "verb" = some (some (.obj v)))
    (h4 : v.lookupLast "display" = some (.obj d)) :
    (acceptStatement s = some true ↔ m ≠ "") ∧ acceptStatement s ≠ none := by
  have hbody : acceptStatement s = some (decide ¬(m = "")) := by
    rw [acceptStatement]
    rw [h1]
    simp only [Option.bind_eq_bind, Option.some_bind, truthyO, truthy]
    rw [jsMem, h2]
    by_cases hm : m = ""
    · subst hm
      simp [truthyO, truthy]
    · simp only [Option.some_bind, truthyO, truthy]
      rw [if_pos (by simp [hm])]
      rw [h3]
      simp only [Option.some_bind, truthyO, truthy]
      rw [jsMem, h4]
      simp [truthyO, truthy, hm]
  constructor
  · rw [hbody]
    by_cases hm : m = "" <;> simp [hm]
  · rw [hbody]
    simp

/-- Witness for the amended C8 at a concrete well-shaped record. -/
theorem acceptStatement_truthiness_witness :
    (acceptStatement c8rec = some true ↔ ("" : String) ≠ "") ∧
      acceptStatement c8rec ≠ none :=
  acceptStatement_truthiness c8rec
    (JObj.cons "mbox" (.str "") .nil)
    (JObj.cons "display" (jobj [("en", .str "did")]) .nil)
    (JObj.cons "en" (.str "did") .nil) ""
    (by decide) (by decide) (by decide) (by decide)

/-- The filter never produces more records than the page held. -/
lemma filterAccept_length_le (l : List Json) (fl : List Json)
    (h : filterAccept l = some fl) : fl.length ≤ l.length := by
  induction l generalizing fl with
  | nil =>
      simp [filterAccept] at h
      simp [← h]
  | cons s ss ih =>
      rw [filterAccept] at h
      cases hb : acceptStatement s with
      | none => rw [hb] at h; simp at h
      | some b =>
          rw [hb] at h
          cases hr : filterAccept ss with
          | none => rw [hr] at h; simp at h
          | some rest =>
              rw [hr] at h
              simp only [Option.bind_eq_bind, Option.some_bind, Option.pure_def,
                Option.some.injEq] at h
              have hl2 := ih rest hr
              rw [← h]
              cases b <;> simp <;> omega

/-- The accumulator invariant of the pagination loop: starting below the
bound, every successful outcome stays within limit plus one page. -/
lemma fetchGo_bound (pages : List Page) (acc : List Json) (cnt : Nat)
    (flag : Nat → Bool) (limit n M : Nat) (l : List Json)
    (hM : ∀ p ∈ pages, (p.statements.getD []).length ≤ M)
    (hacc : acc.length = cnt) (hcnt : cnt ≤ limit + M)
    (h : fetchGo flag limit pages acc cnt n = .ok l) : l.length ≤ limit + M := by
  induction pages generalizing acc cnt n with
  | nil =>
      rw [fetchGo] at h
      split at h
      · injection h with h2
        rw [← h2, hacc]; exact hcnt
      · exact absurd h (by simp)
  | cons p ps ih =>
      rw [fetchGo] at h
      split at h
      · injection h with h2
        rw [← h2, hacc]; exact hcnt
      · rename_i hcond
        have hlt : cnt < limit := by
          rcases not_or.mp hcond with ⟨-, h2⟩
          omega
        split at h
        · exact absurd h (by simp)
        · cases hst : p.statements with
          | none => rw [hst] at h; simp at h
          | some stmts =>
              rw [hst] at h
              dsimp only at h
              cases hf : filterAccept stmts with
              | none => rw [hf] at h; simp at h
              | some filtered =>
                  rw [hf] at h
                  dsimp only at h
                  have hflen : filtered.length ≤ M := by
                    have h1 := filterAccept_length_le stmts filtered hf
                    have h2 := hM p (by simp)
                    rw [hst] at h2
                    simpa using le_trans h1 h2
                  have hcnt2 : cnt + filtered.length ≤ limit + M := by omega
                  split at h
                  · exact ih (acc ++ filtered) (cnt + filtered.length) (n + 1)
                      (fun q hq => hM q (by simp [hq])) (by simp [hacc]) hcnt2 h
                  · injection h with h2
                    rw [← h2]
                    simpa [hacc] using hcnt2

/-- The statement of the second claim as written: the accumulator never
exceeds the target count. -/
def accumWithinLimit : Prop :=
  ∀ (pages : List Page) (flag : Nat → Bool) (limit : Nat) (l : List Json),
    fetchStatements pages flag limit = .ok l → l.length ≤ limit

/-- A minimal record accepted by the filter. -/
def c2st : Json := jobj [
  ("actor", jobj [("mbox", .str "mailto:a@b.com")]),
  ("verb", jobj [("display", jobj [("en", .str "did")])])]

/-- C2 counterexample: with a target count of 1, a single page holding two
accepted records is fetched whole, and the returned accumulator holds 2
records: the run does not truncate, so the count exceeds the limit. -/
theorem fetchStatements_overshoots_limit :
    fetchStatements [⟨200, some [c2st, c2st], none⟩] (fun _ => true) 1 =
      .ok [c2st, c2st] ∧ ¬ ([c2st, c2st] : List Json).length ≤ 1 := by
  constructor
  · rfl
  · decide

/-- C2 amended: the accumulator can exceed the target count only by the
final page overshoot; whenever every store page holds at most M records,
any successful run returns at most limit + M records.  (The check
fetchedCount at-least-limit happens before a fetch, never after the
append, so exactly one page of overshoot is possible.) -/
theorem fetchStatements_bounded_overshoot
    (pages : List Page) (flag : Nat → Bool) (limit M : Nat) (l : List Json)
    (hM : ∀ p ∈ pages, (p.statements.getD []).length ≤ M)
    (h : fetchStatements pages flag limit = .ok l) :
    l.length ≤ limit + M :=
  fetchGo_bound pages [] 0 flag limit 0 M l hM rfl (by omega) h

/-- Witness for the amended C2 on the overshooting run itself. -/
theorem fetchStatements_bounded_overshoot_witness :
    ([c2st, c2st] : List Json).length ≤ 1 + 2 :=
  fetchStatements_bounded_overshoot [⟨200, some [c2st, c2st], none⟩]
    (fun _ => true) 1 2 [c2st, c2st] (by decide) rfl

/-- accumOf distributes over cons. -/
lemma accumOf_cons (p : Page) (ps : List Page) :
    accumOf (p :: ps) = pageFiltered p ++ accumOf ps := by
  simp [accumOf]

/-- Cancellation unwinding: if the shared flag reads true up to round n and
false from round n + 1 on (the signal lands while the round n request is in
flight), and rounds 0..n all return well-formed pages, stay under the limit
and carry active continuations, then the run resolves successfully with
exactly the filtered records of those rounds appended to the accumulator. -/
lemma fetchGo_cancel (d : Nat) :
    ∀ (rest : List Page) (acc : List Json) (cnt r n limit : Nat),
    r + d = n →
    (∀ p ∈ rest.take (d + 1), p.status = 200 ∧ p.statements.isSome = true ∧
      (filterAccept (p.statements.getD [])).isSome = true) →
    d + 1 ≤ rest.length →
    (∀ k, k ≤ d → cnt + (accumOf (rest.take k)).length < limit) →
    (∀ k, k < d → ((rest[k]?).map (fun p => moreActive p.more)).getD false = true) →
    fetchGo (fun j => decide (j ≤ n)) limit rest acc cnt r =
      .ok (acc ++ accumOf (rest.take (d + 1))) := by
  induction d with
  | zero =>
      intro rest acc cnt r n limit hrd hwf hlen hcnt hmore
      cases rest with
      | nil => simp at hlen
      | cons p ps =>
          have hcnt0 : cnt < limit := by
            have := hcnt 0 (by omega)
            simpa [accumOf] using this
          have hp := hwf p (by simp)
          obtain ⟨stmts, hst⟩ := Option.isSome_iff_exists.mp hp.2.1
          have hf0 : (filterAccept (p.statements.getD [])).isSome = true := hp.2.2
          rw [hst] at hf0
          obtain ⟨filtered, hf⟩ := Option.isSome_iff_exists.mp (by simpa using hf0)
          rw [fetchGo]
          rw [if_neg (by
            rw [not_or]
            constructor
            · simp
              omega
            · omega)]
          rw [if_neg (by simp [hp.1])]
          rw [hst]
          dsimp only
          rw [hf]
          dsimp only
          rw [if_neg (by
            rintro ⟨-, h2⟩
            simp at h2
            omega)]
          simp [List.take_succ_cons, accumOf_cons, accumOf, pageFiltered, hst, hf]
  | succ d ih =>
      intro rest acc cnt r n limit hrd hwf hlen hcnt hmore
      cases rest with
      | nil => simp at hlen
      | cons p ps =>
          have hcnt0 : cnt < limit := by
            have := hcnt 0 (by omega)
            simpa [accumOf] using this
          have hp := hwf p (by simp)
          obtain ⟨stmts, hst⟩ := Option.isSome_iff_exists.mp hp.2.1
          have hf0 : (filterAccept (p.statements.getD [])).isSome = true := hp.2.2
          rw [hst] at hf0
          obtain ⟨filtered, hf⟩ := Option.isSome_iff_exists.mp (by simpa using hf0)
          have hm0 : moreActive p.more = true := by
            have := hmore 0 (by omega)
            simpa using this
          rw [fetchGo]
          rw [if_neg (by
            rw [not_or]
            constructor
            · simp
              omega
            · omega)]
          rw [if_neg (by simp [hp.1])]
          rw [hst]
          dsimp only
          rw [hf]
          dsimp only
          rw [if_pos (by
            refine ⟨hm0, ?_⟩
            simp
            omega)]
          have hflen : filtered.length = (pageFiltered p).length := by
            simp [pageFiltered, hst, hf]
          rw [ih ps (acc ++ filtered) (cnt + filtered.length) (r + 1) n limit
            (by omega)
            (by
              intro q hq
              exact hwf q (by simp [List.take_succ_cons, hq]))
            (by simpa using hlen)
            (by
              intro k hk
              have := hcnt (k + 1) (by omega)
              rw [List.take_succ_cons, accumOf_cons] at this
              simp only [List.length_append] at this
              omega)
            (by
              intro k hk
              have := hmore (k + 1) (by omega)
              simpa using this)]
          rw [List.take_succ_cons, accumOf_cons]
          simp [pageFiltered, hst, hf]

/-- C5: if cancellation is signaled while a pagination run is in progress
(the shared flag reads true at every check up to and including the entry of
round n, and false at the check made in round n's callback, i.e. the signal
lands while the round n fetch is in flight), and the pages fetched so far
are well-formed, under the limit and carrying continuations, then the run
terminates right after the in-flight fetch completes and resolves
successfully with the records accumulated so far - not with an error. -/
theorem fetchStatements_cancellation
    (pages : List Page) (n limit : Nat)
    (hwf : ∀ p ∈ pages.take (n + 1), p.status = 200 ∧ p.statements.isSome = true ∧
      (filterAccept (p.statements.getD [])).isSome = true)
    (hlen : n + 1 ≤ pages.length)
    (hcnt : ∀ k, k ≤ n → (accumOf (pages.take k)).length < limit)
    (hmore : ∀ k, k < n → ((pages[k]?).map (fun p => moreActive p.more)).getD false = true) :
    fetchStatements pages (fun j => decide (j ≤ n)) limit =
      .ok (accumOf (pages.take (n + 1))) := by
  have h := fetchGo_cancel n pages [] 0 0 n limit (by omega) hwf hlen
    (by simpa using hcnt) hmore
  simpa [fetchStatements] using h

/-- A store of three well-formed single-record pages for the cancellation
witness. -/
def c5pages : List Page :=
  [⟨200, some [jobj [("actor", jobj [("mbox", .str "mailto:a@b.com")]),
      ("verb", jobj [("display", jobj [("en", .str "did")])])]], some "t1"⟩,
   ⟨200, some [jobj [("actor", jobj [("mbox", .str "mailto:c@d.com")]),
      ("verb", jobj [("display", jobj [("en", .str "did")])])]], some "t2"⟩,
   ⟨200, some [jobj [("actor", jobj [("mbox", .str "mailto:e@f.com")]),
      ("verb", jobj [("display", jobj [("en", .str "did")])])]], some "t3"⟩]

/-- Witness for C5: cancellation during round 1 of a three-page store ends
the run successfully with the two pages fetched so far. -/
theorem fetchStatements_cancellation_witness :
    fetchStatements c5pages (fun j => decide (j ≤ 1)) 10 =
      .ok (accumOf (c5pages.take 2)) :=
  fetchStatements_cancellation c5pages 1 10 (by decide) (by decide)
    (by decide) (by decide)

/-- The two-record collection for the encoder round-trip check. -/
def c3stmts : List Json := [jobj [("a", .num 1 0)], jobj [("b", .num 2 0)]]

/-- The jsonl payload the code produces for it: the records are joined by
the two-character sequence backslash n (the source writes an escaped escape
in the join separator), not by a newline. -/
def c3payload : String := "\x7b\"a\":1\x7d\\n\x7b\"b\":2\x7d"

/-- The raw payload: the pretty-printed collection, indent 2. -/
def c3rawPayload : String :=
  "[\n  \x7b\n    \"a\": 1\n  \x7d,\n  \x7b\n    \"b\": 2\n  \x7d\n]"

/-- C3: the raw half of the round-trip holds (pretty payload decodes back to
the collection), but the jsonl half fails on this two-record collection:
the payload contains no newline character at all, so splitting on newlines
yields the whole payload as a single line, and that line is not valid JSON;
the claimed element-wise recovery is impossible.  The separator the code
uses is the literal two-character sequence backslash n. -/
theorem encoder_roundtrip_jsonl_separator_bug :
    processStatements c3stmts "jsonl" false =
      some (c3payload, "application/json", "jsonl") ∧
    splitOnChar '\n' c3payload.data = [c3payload.data] ∧
    parseJson c3payload = none ∧
    c3payload.data.length = 16 ∧
    processStatements c3stmts "raw" false =
      some (c3rawPayload, "application/json", "json") ∧
    parseJson c3rawPayload = some (jarr c3stmts) := by
  refine ⟨by decide, by decide, by decide, by decide, by decide, by decide⟩

/-- A bind is none when every success of the first step fails afterwards. -/
lemma opt_bind_none {α β : Type} (o : Option α) (f : α → Option β)
    (h : ∀ a, o = some a → f a = none) : o >>= f = none := by
  cases o with
  | none => rfl
  | some a => simpa using h a rfl

/-- The question block throws when the response is present and truthy but
does not decode. -/
lemma questionFields_parse_fail (r resp : Option Json)
    (htr : truthyO r = true) (hresp : jsMem r "response" = some resp)
    (htresp : truthyO resp = true) (hpar : parseArg resp = none) :
    questionFields r = none := by
  simp [questionFields, htr, hresp, htresp, hpar]

/-- The question block yields four empty fields when the result or the
response is absent or falsy. -/
lemma questionFields_skipped (r : Option Json)
    (hcond : truthyO r = false ∨
      ∃ resp, jsMem r "response" = some resp ∧ truthyO resp = false) :
    questionFields r = some ("", "", "", "") := by
  rcases hcond with h | ⟨resp, hresp, htresp⟩
  · simp [questionFields, h]
  · cases htr : truthyO r with
    | false => simp [questionFields, htr]
    | true => simp [questionFields, htr, hresp, htresp]

/-- The record of the C1 counterexample: fully well-formed except that
result.response holds a string that is not valid JSON. -/
def c1rec : Json := jobj [
  ("id", .str "s1"),
  ("actor", jobj [("mbox", .str "mailto:alice@example.com")]),
  ("verb", jobj [("display", jobj [("en-US", .str "answered")])]),
  ("object", jobj [("id", .str "http://x/act"),
    ("definition", jobj [("name", jobj [("en", .str "Quiz Q1")])])]),
  ("timestamp", .str "2024-07-15T00:00:00Z"),
  ("result", jobj [("response", .str "not json")])]

/-- C1 counterexample: the row computation is not total.  This record's
result.response is present but not valid JSON; JSON.parse throws with no
try/catch around it, the exception escapes the map callback, and no row is
emitted at all - rather than the claimed row with the four question fields
empty. -/
theorem extractRow_throws_on_undecodable_response :
    extractRow false c1rec = none ∧
    jsMem (jsMem (some c1rec) "result").get! "response" = some (some (.str "not json")) ∧
    parseJson "not json" = none := by
  refine ⟨by decide, by decide, by decide⟩

/-- C1 amended: a JSON-decode failure in the nested question block aborts
the whole row (the exception is uncaught), so the row computation throws
whenever result.response is present, truthy and undecodable; only when the
result or response is absent or falsy does the computation leave exactly
the four question fields empty while still emitting the rest of the row. -/
theorem extractRow_question_block_partiality (b : Bool) (s : Json) :
    (∀ r resp, jsMem (some s) "result" = some r → truthyO r = true →
      jsMem r "response" = some resp → truthyO resp = true →
      parseArg resp = none → extractRow b s = none) ∧
    (∀ row r, extractRow b s = some row → jsMem (some s) "result" = some r →
      (truthyO r = false ∨
        ∃ resp, jsMem r "response" = some resp ∧ truthyO resp = false) →
      row.questionAnswers = "" ∧ row.questionPassed = "" ∧
      row.questionCorrectAnswers = "" ∧ row.usersAnswer = "") := by
  constructor
  · intro r resp hr htr hresp htresp hpar
    have hqf := questionFields_parse_fail r resp htr hresp htresp hpar
    rw [extractRow]
    apply opt_bind_none; intro idV h0
    apply opt_bind_none; intro actorV h1
    apply opt_bind_none; intro actorStr h2
    apply opt_bind_none; intro verbV h3
    apply opt_bind_none; intro dispV h4
    apply opt_bind_none; intro objV h5
    apply opt_bind_none; intro defV h6
    apply opt_bind_none; intro objectNameStr h7
    apply opt_bind_none; intro objectIdV h8
    apply opt_bind_none; intro tsV h9
    apply opt_bind_none; intro resV h10
    rw [hr] at h10
    injection h10 with h10e
    subst h10e
    apply opt_bind_none; intro q hq
    rw [hqf] at hq
    exact absurd hq (by simp)
  · intro row r hrow hr hcond
    have hqf := questionFields_skipped r hcond
    rw [extractRow] at hrow
    simp only [Option.bind_eq_bind, Option.bind_eq_some] at hrow
    obtain ⟨idV, h0, actorV, h1, actorStr, h2, verbV, h3, dispV, h4, objV, h5,
      defV, h6, objectNameStr, h7, objectIdV, h8, tsV, h9, resV, h10, q, hq, hpure⟩ := hrow
    rw [hr] at h10
    injection h10 with h10e
    subst h10e
    rw [hqf] at hq
    injection hq with hqe
    subst hqe
    injection hpure with hrowe
    rw [← hrowe]
    exact ⟨rfl, rfl, rfl, rfl⟩

/-- A record with result present but no response field: the row is emitted
with the question fields empty. -/
def c1recNoResp : Json := jobj [
  ("id", .str "s1"),
  ("actor", jobj [("mbox", .str "mailto:alice@example.com")]),
  ("verb", jobj [("display", jobj [("en-US", .str "answered")])]),
  ("object", jobj [("id", .str "http://x/act")]),
  ("timestamp", .str "2024-07-15T00:00:00Z"),
  ("result", jobj [("duration", .str "PT1S")])]

/-- Witness for the amended C1: both halves applied at concrete records. -/
theorem extractRow_question_block_partiality_witness :
    extractRow false c1rec = none ∧
    ∀ row, extractRow false c1recNoResp = some row →
      row.questionAnswers = "" ∧ row.questionPassed = "" ∧
      row.questionCorrectAnswers = "" ∧ row.usersAnswer = "" := by
  constructor
  · exact (extractRow_question_block_partiality false c1rec).1
      (some (jobj [("response", .str "not json")])) (some (.str "not json"))
      (by decide) (by decide) (by decide) (by decide) (by decide)
  · intro row hrow
    exact (extractRow_question_block_partiality false c1recNoResp).2 row
      (some (jobj [("duration", .str "PT1S")])) hrow (by decide)
      (Or.inr ⟨none, by decide, by decide⟩)

/-- Inside a successfully emitted row, the question block's second component
is False whenever the decoded response object's success member is absent or
falsy. -/
lemma questionFields_success_falsy (r resp : Option Json) (resJ : Json)
    (sv : Option Json) (q : String × String × String × String)
    (htr : truthyO r = true) (hresp : jsMem r "response" = some resp)
    (htresp : truthyO resp = true) (hpar : parseArg resp = some resJ)
    (hsv : jsMem (some resJ) "success" = some sv) (hfalsy : truthyO sv = false)
    (hq : questionFields r = some q) : q.2.1 = "False" := by
  rw [questionFields, if_pos htr, hresp] at hq
  simp only [Option.bind_eq_bind, Option.some_bind] at hq
  rw [if_pos htresp, hpar] at hq
  simp only [Option.some_bind] at hq
  rw [hsv] at hq
  simp only [Option.some_bind, hfalsy] at hq
  simp only [Option.bind_eq_some] at hq
  obtain ⟨chV, h1, chJ, h2, ca, h3, r3, h4, hpure⟩ := hq
  injection hpure with hqe
  rw [← hqe]
  simp

/-- C10: when result.response is present and decodes to an object whose
success member is absent or otherwise falsy, the emitted row's
questionPassed field reads False - an absent flag is indistinguishable in
the output from an explicit false. -/
theorem questionPassed_false_for_falsy_success
    (b : Bool) (s : Json) (row : Row) (r resp : Option Json) (resJ : Json)
    (sv : Option Json)
    (hr : jsMem (some s) "result" = some r) (htr : truthyO r = true)
    (hresp : jsMem r "response" = some resp) (htresp : truthyO resp = true)
    (hpar : parseArg resp = some resJ)
    (hsv : jsMem (some resJ) "success" = some sv) (hfalsy : truthyO sv = false)
    (hrow : extractRow b s = some row) :
    row.questionPassed = "False" := by
  rw [extractRow] at hrow
  simp only [Option.bind_eq_bind, Option.bind_eq_some] at hrow
  obtain ⟨idV, h0, actorV, h1, actorStr, h2, verbV, h3, dispV, h4, objV, h5,
    defV, h6, objectNameStr, h7, objectIdV, h8, tsV, h9, resV, h10, q, hq, hpure⟩ := hrow
  rw [hr] at h10
  injection h10 with h10e
  subst h10e
  have := questionFields_success_falsy r resp resJ sv q htr hresp htresp hpar
    hsv hfalsy hq
  injection hpure with hrowe
  rw [← hrowe]
  exact this

/-- A record whose response decodes with success false and whose choices
string decodes to the empty array. -/
def c10rec : Json := jobj [
  ("id", .str "s10"),
  ("actor", jobj [("mbox", .str "mailto:alice@example.com")]),
  ("verb", jobj [("display", jobj [("en", .str "answered")])]),
  ("object", jobj [("id", .str "http://x/act")]),
  ("timestamp", .str "2024-07-15T00:00:00Z"),
  ("result", jobj [
    ("response", .str "\x7b\"success\": false\x7d"),
    ("choices", .str "[]")])]

/-- The row the code emits for that record. -/
def c10row : Row :=
  { id := "s10", actor := "alice@example.com", verb := "answered",
    objectId := "http://x/act", objectName := "", duration := "0",
    questionAnswers := "", questionPassed := "False",
    questionCorrectAnswers := "", usersAnswer := "",
    timestamp := "2024-07-15T00:00:00Z" }

/-- Witness for C10 at the concrete record with an explicit false flag. -/
theorem questionPassed_false_for_falsy_success_witness :
    c10row.questionPassed = "False" :=
  questionPassed_false_for_falsy_success false c10rec c10row
    (some (jobj [("response", .str "\x7b\"success\": false\x7d"),
      ("choices", .str "[]")]))
    (some (.str "\x7b\"success\": false\x7d"))
    (jobj [("success", .bool false)]) (some (.bool false))
    (by decide) (by decide) (by decide) (by decide) (by decide) (by decide)
    (by decide) (by decide)

/-- The C4 record: two choices with distinct descriptions A and B, a
correct-response pattern naming both ids, and a user response naming one. -/
def c4rec : Json := jobj [
  ("id", .str "s1"),
  ("actor", jobj [("mbox", .str "mailto:alice@example.com")]),
  ("verb", jobj [("display", jobj [("en-US", .str "answered")])]),
  ("object", jobj [("id", .str "http://x/act"),
    ("definition", jobj [("name", jobj [("en", .str "Quiz Q1")])])]),
  ("timestamp", .str "2024-07-15T00:00:00Z"),
  ("result", jobj [
    ("duration", .str "PT1H2M3S"),
    ("response", .str "\x7b\"success\":true\x7d"),
    ("choices", .str "[\x7b\"id\":\"c1\",\"description\":\x7b\"und\":\"A\"\x7d\x7d,\x7b\"id\":\"c2\",\"description\":\x7b\"und\":\"B\"\x7d\x7d]"),
    ("correctResponsesPattern", .str "[\"c1[,]c2\"]"),
    ("responses", .str "[\"c1\"]")])]

/-- The row the code emits for c4rec. -/
def c4row : Row :=
  { id := "s1", actor := "alice@example.com", verb := "answered",
    objectId := "http://x/act", objectName := "Quiz Q1", duration := "3723",
    questionAnswers := "id= 1: c1 Answer=A|id= 2: c2 Answer=B|",
    questionPassed := "True",
    questionCorrectAnswers := " id=c1 Answer=B| id=c2 Answer=B|",
    usersAnswer := " id=c1 Answer=B|",
    timestamp := "2024-07-15T00:00:00Z" }

/-- C4 counterexample: the claim requires one entry per (response id,
choice) pair over all choices, so the pair (c1, first choice) must
contribute the entry id=c1 Answer=A.  The code instead resets the
accumulation strings on every choice iteration, so the emitted
questionCorrectAnswers pairs every id with the last choice's description B
only, and no Answer=A entry appears anywhere in it. -/
theorem questionAnswers_not_cross_joined :
    extractRow false c4rec = some c4row ∧
    c4row.questionCorrectAnswers = " id=c1 Answer=B| id=c2 Answer=B|" ∧
    ¬ (" id=c1 Answer=A|".data <:+: c4row.questionCorrectAnswers.data) := by
  refine ⟨by decide, by decide, by decide⟩

/-- String.join of a cons. -/
lemma strJoin_cons (x : String) (xs : List String) :
    String.join (x :: xs) = x ++ String.join xs := by
  apply String.ext
  simp [String.join_eq, String.data_append]

/-- Accumulating appends from the empty string is joining the mapped
pieces. -/
lemma foldl_append_eq_join (g : String → String) (l : List String) :
    l.foldl (fun a t => a ++ g t) "" = String.join (l.map g) := by
  suffices h : ∀ init, l.foldl (fun a t => a ++ g t) init = init ++ String.join (l.map g) by
    simpa using h ""
  induction l with
  | nil =>
      intro init
      apply String.ext
      simp [String.join_eq, String.data_append]
  | cons a t ih =>
      intro init
      rw [List.foldl_cons, ih (init ++ g a), List.map_cons, strJoin_cons,
        String.append_assoc]

/-- The choices forEach rebuilds the two answer strings from scratch on each
iteration, so after the loop they reflect only the final choice: whatever
the incoming accumulation strings were, a successful loop over a non-empty
choice list returns the per-id entries built from the LAST choice's
description. -/
lemma choicesLoop_last
    (rv patV rspV dv undv : Option Json) (patS rspS : String)
    (hpat : jsMem rv "correctResponsesPattern" = some patV)
    (hpatS : jsAsString patV = some patS)
    (hrsp : jsMem rv "responses" = some rspV)
    (hrspS : jsAsString rspV = some rspS) :
    ∀ (cs : List Json) (lc : Json), cs.getLast? = some lc →
      jsMem (some lc) "description" = some dv →
      jsMem dv "und" = some undv →
      ∀ (i : Nat) (qa qca ua : String) (r3 : String × String × String),
        choicesLoop rv cs i qa qca ua = some r3 →
        r3.2.1 = (processStringToArray patS).foldl
          (fun a t => a ++ " id=" ++ t ++ " Answer=" ++ jsToStrO undv ++ "|") "" ∧
        r3.2.2 = (processStringToArray rspS).foldl
          (fun a t => a ++ " id=" ++ t ++ " Answer=" ++ jsToStrO undv ++ "|") "" := by
  intro cs
  induction cs with
  | nil => intro lc hlast; simp at hlast
  | cons c cs2 ih =>
      intro lc hlast hd hu i qa qca ua r3 hloop
      rw [choicesLoop] at hloop
      simp only [Option.bind_eq_bind, Option.bind_eq_some] at hloop
      obtain ⟨cidV, h1, dscV, h2, undV, h3, patV2, h4, patS2, h5, rspV2, h6,
        rspS2, h7, hrest⟩ := hloop
      rw [hpat] at h4
      injection h4 with h4e
      subst h4e
      rw [hpatS] at h5
      injection h5 with h5e
      subst h5e
      rw [hrsp] at h6
      injection h6 with h6e
      subst h6e
      rw [hrspS] at h7
      injection h7 with h7e
      subst h7e
      cases cs2 with
      | nil =>
          have hlc : c = lc := by simpa using hlast
          subst hlc
          rw [hd] at h2
          injection h2 with h2e
          subst h2e
          rw [hu] at h3
          injection h3 with h3e
          subst h3e
          rw [choicesLoop] at hrest
          injection hrest with hre
          rw [← hre]
          exact ⟨rfl, rfl⟩
      | cons c2 cs3 =>
          exact ih lc (by simpa using hlast) hd hu (i + 1) _ _ _ r3 hrest

/-- C4 amended: the pattern strings are parsed exactly as claimed (strip
enclosing brackets and quotes, split on the literal delimiter), but the
per-choice accumulation strings are reset on every iteration of the choices
loop, so the emitted questionCorrectAnswers and usersAnswer contain exactly
one entry per response id, each paired with the LAST choice's description -
not one entry for every (response id, choice) pair. -/
theorem questionAnswers_last_choice_join
    (b : Bool) (s : Json) (row : Row)
    (r resp chV dv undv patV rspV sv : Option Json) (resJ : Json) (ca : JArr)
    (lc : Json) (patS rspS : String)
    (hr : jsMem (some s) "result" = some r) (htr : truthyO r = true)
    (hresp : jsMem r "response" = some resp) (htresp : truthyO resp = true)
    (hpar : parseArg resp = some resJ)
    (hsv : jsMem (some resJ) "success" = some sv)
    (hch : jsMem r "choices" = some chV)
    (hchJ : parseArg chV = some (.arr ca))
    (hlast : ca.toList.getLast? = some lc)
    (hd : jsMem (some lc) "description" = some dv)
    (hu : jsMem dv "und" = some undv)
    (hpat : jsMem r "correctResponsesPattern" = some patV)
    (hpatS : jsAsString patV = some patS)
    (hrsp : jsMem r "responses" = some rspV)
    (hrspS : jsAsString rspV = some rspS)
    (hrow : extractRow b s = some row) :
    row.questionCorrectAnswers = String.join ((processStringToArray patS).map
      (fun t => " id=" ++ t ++ " Answer=" ++ jsToStrO undv ++ "|")) ∧
    row.usersAnswer = String.join ((processStringToArray rspS).map
      (fun t => " id=" ++ t ++ " Answer=" ++ jsToStrO undv ++ "|")) := by
  rw [extractRow] at hrow
  simp only [Option.bind_eq_bind, Option.bind_eq_some] at hrow
  obtain ⟨idV, h0, actorV, h1, actorStr, h2, verbV, h3, dispV, h4, objV, h5,
    defV, h6, objectNameStr, h7, objectIdV, h8, tsV, h9, resV, h10, q, hq, hpure⟩ := hrow
  rw [hr] at h10
  injection h10 with h10e
  subst h10e
  rw [questionFields, if_pos htr, hresp] at hq
  simp only [Option.bind_eq_bind, Option.some_bind] at hq
  rw [if_pos htresp, hpar] at hq
  simp only [Option.some_bind] at hq
  rw [hsv] at hq
  simp only [Option.some_bind] at hq
  rw [hch] at hq
  simp only [Option.some_bind] at hq
  rw [hchJ] at hq
  simp only [Option.some_bind, jsAsArr] at hq
  simp only [Option.bind_eq_some] at hq
  obtain ⟨r3, hloop, hqe⟩ := hq
  have hlcr := choicesLoop_last r patV rspV dv undv patS rspS hpat hpatS hrsp hrspS
    ca.toList lc hlast hd hu 1 "" "" "" r3 hloop
  injection hqe with hqe2
  injection hpure with hrowe
  rw [← hrowe, ← hqe2]
  rw [← foldl_append_eq_join, ← foldl_append_eq_join]
  have hassoc : ∀ d : String,
      (fun (a t : String) => a ++ (" id=" ++ t ++ " Answer=" ++ d ++ "|")) =
        (fun (a t : String) => a ++ " id=" ++ t ++ " Answer=" ++ d ++ "|") := by
    intro d
    funext a t
    simp [String.append_assoc]
  rw [hassoc]
  exact hlcr

/-- Witness for the amended C4 at the two-choice record: every entry pairs
an id with the final choice's description B. -/
theorem questionAnswers_last_choice_join_witness :
    c4row.questionCorrectAnswers = String.join ((processStringToArray "[\"c1[,]c2\"]").map
      (fun t => " id=" ++ t ++ " Answer=" ++ jsToStrO (some (.str "B")) ++ "|")) ∧
    c4row.usersAnswer = String.join ((processStringToArray "[\"c1\"]").map
      (fun t => " id=" ++ t ++ " Answer=" ++ jsToStrO (some (.str "B")) ++ "|")) :=
  questionAnswers_last_choice_join false c4rec c4row
    (some (jobj [
      ("duration", .str "PT1H2M3S"),
      ("response", .str "\x7b\"success\":true\x7d"),
      ("choices", .str "[\x7b\"id\":\"c1\",\"description\":\x7b\"und\":\"A\"\x7d\x7d,\x7b\"id\":\"c2\",\"description\":\x7b\"und\":\"B\"\x7d\x7d]"),
      ("correctResponsesPattern", .str "[\"c1[,]c2\"]"),
      ("responses", .str "[\"c1\"]")]))
    (some (.str "\x7b\"success\":true\x7d"))
    (some (.str "[\x7b\"id\":\"c1\",\"description\":\x7b\"und\":\"A\"\x7d\x7d,\x7b\"id\":\"c2\",\"description\":\x7b\"und\":\"B\"\x7d\x7d]"))
    (some (jobj [("und", .str "B")])) (some (.str "B"))
    (some (.str "[\"c1[,]c2\"]")) (some (.str "[\"c1\"]"))
    (some (.bool true))
    (jobj [("success", .bool true)])
    (JArr.cons (jobj [("id", .str "c1"), ("description", jobj [("und", .str "A")])])
      (JArr.cons (jobj [("id", .str "c2"), ("description", jobj [("und", .str "B")])]) .nil))
    (jobj [("id", .str "c2"), ("description", jobj [("und", .str "B")])])
    "[\"c1[,]c2\"]" "[\"c1\"]"
    (by decide) (by decide) (by decide) (by decide) (by decide) (by decide)
    (by decide) (by decide) (by decide) (by decide) (by decide) (by decide)
    (by decide) (by decide) (by decide) (by decide)
